import Mathlib

/-!
Verification of the beads daemon trust boundary: HMAC request signing,
daemon authentication, per-client sliding-window rate limiting, payload
size enforcement, and the encrypted federation credential store.

Go byte slices and strings are embedded as `List Nat` with every element a
byte value.  Machine integers (`int`, `int64`, `time.Duration` and
`time.Time` instants in nanoseconds, unix seconds) are embedded as `Int`.
External standard-library primitives used by the code (SHA-256, HMAC, hex
encoding, decimal formatting) are implemented bit-for-bit so concrete runs
evaluate; AES-GCM is modelled as a structurally faithful authenticated
cipher (nonce handling, tag layout, and length arithmetic preserved, block
cipher abstracted).
-/

set_option maxRecDepth 1000000

namespace Beads

/-- Go byte slices / strings: lists of byte values. -/
abbrev GoStr := List Nat

/-- Byte list of an ASCII Lean string literal (UTF-8 of each code point below 128). -/
def strBytes (s : String) : GoStr := s.data.map Char.toNat

/-! ### SHA-256 (crypto/sha256), executable, operating on byte lists -/

/-- 2^32, the word modulus of SHA-256 arithmetic. -/
def w32 : Nat := 4294967296

/-- Rotate a word right by `n` bits within 32 bits. -/
def rotr32 (n x : Nat) : Nat := ((x >>> n) ||| (x <<< (32 - n))) % w32

/-- Logical right shift. -/
def shr32 (n x : Nat) : Nat := x >>> n

/-- Addition modulo 2^32. -/
def w32add (a b : Nat) : Nat := (a + b) % w32

def smallSigma0 (x : Nat) : Nat := (rotr32 7 x) ^^^ (rotr32 18 x) ^^^ (shr32 3 x)

def smallSigma1 (x : Nat) : Nat := (rotr32 17 x) ^^^ (rotr32 19 x) ^^^ (shr32 10 x)

def bigSigma0 (x : Nat) : Nat := (rotr32 2 x) ^^^ (rotr32 13 x) ^^^ (rotr32 22 x)

def bigSigma1 (x : Nat) : Nat := (rotr32 6 x) ^^^ (rotr32 11 x) ^^^ (rotr32 25 x)

def sha256Ch (x y z : Nat) : Nat := (x &&& y) ^^^ ((x ^^^ 4294967295) &&& z)

def sha256Maj (x y z : Nat) : Nat := (x &&& y) ^^^ (x &&& z) ^^^ (y &&& z)

/-- Round constants of the SHA-256 compression function (FIPS 180-4), in decimal. -/
def sha256K : List Nat :=
  [1116352408, 1899447441, 3049323471, 3921009573, 961987163, 1508970993,
   2453635748, 2870763221, 3624381080, 310598401, 607225278, 1426881987,
   1925078388, 2162078206, 2614888103, 3248222580, 3835390401, 4022224774,
   264347078, 604807628, 770255983, 1249150122, 1555081692, 1996064986,
   2554220882, 2821834349, 2952996808, 3210313671, 3336571891, 3584528711,
   113926993, 338241895, 666307205, 773529912, 1294757372, 1396182291,
   1695183700, 1986661051, 2177026350, 2456956037, 2730485921, 2820302411,
   3259730800, 3345764771, 3516065817, 3600352804, 4094571909, 275423344,
   430227734, 506948616, 659060556, 883997877, 958139571, 1322822218,
   1537002063, 1747873779, 1955562222, 2024104815, 2227730452, 2361852424,
   2428436474, 2756734187, 3204031479, 3329325298]

/-- Initial hash state of SHA-256 (FIPS 180-4), in decimal. -/
def sha256H0 : List Nat :=
  [1779033703, 3144134277, 1013904242, 2773480762, 1359893119, 2600822924,
   528734635, 1541459225]

/-- Extend a 16-word block with `fuel` additional schedule words (48 for SHA-256). -/
def extendLoop (w : List Nat) : Nat → List Nat
  | 0 => w
  | k + 1 =>
    let i := w.length
    let nw := w32add (w32add (smallSigma1 (w.getD (i - 2) 0)) (w.getD (i - 7) 0))
                     (w32add (smallSigma0 (w.getD (i - 15) 0)) (w.getD (i - 16) 0))
    extendLoop (w ++ [nw]) k

/-- One round of the SHA-256 compression function over the 8-word state. -/
def sha256Round (st : List Nat) (kw : Nat × Nat) : List Nat :=
  match st with
  | [a, b, c, d, e, f, g, h] =>
    let t1 := w32add (w32add (w32add h (bigSigma1 e)) (w32add (sha256Ch e f g) kw.1)) kw.2
    let t2 := w32add (bigSigma0 a) (sha256Maj a b c)
    [w32add t1 t2, a, b, c, w32add d t1, e, f, g]
  | other => other

/-- Compress one 16-word message block into the hash state. -/
def compress (h : List Nat) (block : List Nat) : List Nat :=
  let w := extendLoop block 48
  let st := (sha256K.zip w).foldl sha256Round h
  (h.zip st).map (fun p => w32add p.1 p.2)

/-- Fold the compression function over successive 16-word blocks. -/
def compressBlocks (h : List Nat) : List Nat → List Nat
  | w0 :: w1 :: w2 :: w3 :: w4 :: w5 :: w6 :: w7 ::
    w8 :: w9 :: w10 :: w11 :: w12 :: w13 :: w14 :: w15 :: rest =>
      compressBlocks
        (compress h [w0, w1, w2, w3, w4, w5, w6, w7, w8, w9, w10, w11, w12, w13, w14, w15]) rest
  | _ => h

/-- Group bytes into big-endian 32-bit words. -/
def bytesToWords : List Nat → List Nat
  | b0 :: b1 :: b2 :: b3 :: rest => (b0 * 16777216 + b1 * 65536 + b2 * 256 + b3) :: bytesToWords rest
  | _ => []

/-- Split 32-bit words into big-endian bytes. -/
def wordsToBytes : List Nat → List Nat
  | [] => []
  | w :: rest => [(w >>> 24) % 256, (w >>> 16) % 256, (w >>> 8) % 256, w % 256] ++ wordsToBytes rest

/-- SHA-256 padding: 0x80, zeros to 56 mod 64, then the 64-bit big-endian bit length. -/
def sha256pad (msg : List Nat) : List Nat :=
  let len := msg.length
  let bitLen := len * 8
  let zeros := (119 - len % 64) % 64
  msg ++ [128] ++ List.replicate zeros 0 ++
    [(bitLen >>> 56) % 256, (bitLen >>> 48) % 256, (bitLen >>> 40) % 256, (bitLen >>> 32) % 256,
     (bitLen >>> 24) % 256, (bitLen >>> 16) % 256, (bitLen >>> 8) % 256, bitLen % 256]

/-- SHA-256 of a byte list, as the 32-byte digest. -/
def sha256 (msg : List Nat) : List Nat :=
  wordsToBytes (compressBlocks sha256H0 (bytesToWords (sha256pad msg)))

/-- HMAC-SHA256 (crypto/hmac with crypto/sha256, block size 64). -/
def hmacSha256 (key msg : List Nat) : List Nat :=
  let k0 := if 64 < key.length then sha256 key else key
  let kp := k0 ++ List.replicate (64 - k0.length) 0
  sha256 ((kp.map (fun b => b ^^^ 92)) ++ sha256 ((kp.map (fun b => b ^^^ 54)) ++ msg))

/-- Lowercase hex digit byte for a value below 16 (encoding/hex). -/
def hexDigit (d : Nat) : Nat := if d < 10 then 48 + d else 87 + d

/-- Lowercase hex encoding of a byte list (encoding/hex.EncodeToString), as bytes. -/
def hexEncode : List Nat → List Nat
  | [] => []
  | b :: rest => hexDigit (b / 16) :: hexDigit (b % 16) :: hexEncode rest

/-! ### Decimal rendering (fmt `%d`) -/

/-- Little-endian decimal digits of `n`, computed with structural fuel so the
kernel can evaluate it (`fuel ≥ n` suffices, see `decDigits`). -/
def decDigitsAux : Nat → Nat → List Nat
  | 0, _ => []
  | fuel + 1, n => if n = 0 then [] else n % 10 :: decDigitsAux fuel (n / 10)

/-- Little-endian decimal digits of `n` (empty for 0). -/
def decDigits (n : Nat) : List Nat := decDigitsAux n n

/-- Value of a little-endian decimal digit list (left inverse of `decDigits`). -/
def ofDecDigits : List Nat → Nat
  | [] => 0
  | d :: ds => d + 10 * ofDecDigits ds

/-- Decimal digits of a natural number as ASCII bytes, most significant first. -/
def natToBytes (n : Nat) : GoStr :=
  if n = 0 then [48] else ((decDigits n).map (fun d => d + 48)).reverse

/-- `fmt.Sprintf "%d"` of a signed integer, as ASCII bytes. -/
def intToBytes (i : Int) : GoStr :=
  if i < 0 then 45 :: natToBytes i.natAbs else natToBytes i.toNat

/-! ### RPC wire messages (internal/rpc) -/

/-- An RPC request.  `Timestamp` is unix seconds (`int64`). -/
structure Request where
  Operation : GoStr
  Args : GoStr
  Actor : GoStr
  Cwd : GoStr
  ExpectedDB : GoStr
  RequestID : GoStr
  AuthToken : GoStr
  Signature : GoStr
  Timestamp : Int
deriving DecidableEq

/-- An RPC response. -/
structure Response where
  Success : Bool
  Error : GoStr
  Data : GoStr
deriving DecidableEq

/-! ### RequestSigner (internal/rpc, HMAC request/response signing) -/

/-- `RequestSigner` holds the daemon secret key. -/
structure RequestSigner where
  secretKey : GoStr
deriving DecidableEq

/-- ASCII `|`, the delimiter of the canonical signing payload. -/
def pipeByte : Nat := 124

/-- Canonical request payload of `SignRequest`:
`fmt.Sprintf("%s|%s|%d|%s|%s", req.Operation, string(req.Args), timestamp.Unix(), req.Actor, req.Cwd)`. -/
def signRequestPayload (req : Request) (tsUnix : Int) : GoStr :=
  req.Operation ++ [pipeByte] ++ req.Args ++ [pipeByte] ++ intToBytes tsUnix ++
    [pipeByte] ++ req.Actor ++ [pipeByte] ++ req.Cwd

/-- `SignRequest`: lowercase-hex HMAC-SHA256 of the canonical request payload. -/
def SignRequest (rs : RequestSigner) (req : Request) (tsUnix : Int) : GoStr :=
  hexEncode (hmacSha256 rs.secretKey (signRequestPayload req tsUnix))

/-- `VerifyRequest`: recompute and compare (`hmac.Equal` on byte slices is
byte equality; constant-time in the source, which has no observable effect here).
`true` stands for the nil error. -/
def VerifyRequest (rs : RequestSigner) (req : Request) (tsUnix : Int) (signature : GoStr) : Bool :=
  signature = SignRequest rs req tsUnix

/-! ### SizeGuard (internal/rpc/size_limits.go) -/

/-- Maximum request payload size: 10 MiB. -/
def MaxRequestSize : Nat := 10 * 1024 * 1024

/-- Maximum response payload size: 50 MiB. -/
def MaxResponseSize : Nat := 50 * 1024 * 1024

/-- Outcome of a size validation; the constructors mirror the distinct
error messages of the source. -/
inductive SizeCheck where
  | ok : SizeCheck
  | payloadTooLarge (n : Nat) : SizeCheck
  | totalTooLarge (n : Nat) : SizeCheck
deriving DecidableEq

/-- `ValidateRequestSize`: reject when `len(Args)` exceeds `MaxRequestSize`, or when
the summed field lengths exceed it. -/
def ValidateRequestSize (req : Request) : SizeCheck :=
  let argsSize := req.Args.length
  if MaxRequestSize < argsSize then .payloadTooLarge argsSize
  else
    let totalSize := argsSize + req.Operation.length + req.Actor.length +
      req.Cwd.length + req.ExpectedDB.length
    if MaxRequestSize < totalSize then .totalTooLarge totalSize
    else .ok

/-- `ValidateResponseSize`: reject when `len(Data)` exceeds `MaxResponseSize`. -/
def ValidateResponseSize (resp : Response) : SizeCheck :=
  let dataSize := resp.Data.length
  if MaxResponseSize < dataSize then .payloadTooLarge dataSize else .ok

/-! ### AuthManager (internal/rpc/auth.go)

File I/O is embedded as an explicit store mapping a path to file contents.
`os.ReadFile` failure is a missing path; permissions have no functional
effect on the properties below.  Randomness (`crypto/rand`) and the
RFC3339Nano-formatted start time enter as explicit parameters. -/

/-- The daemon file system, path to contents. -/
def FileSys : Type := GoStr → Option GoStr

/-- `os.WriteFile`. -/
def fsWrite (fs : FileSys) (path contents : GoStr) : FileSys :=
  fun q => if q = path then some contents else fs q

/-- A file system with no readable files. -/
def fsEmpty : FileSys := fun _ => none

/-- `filepath.Dir` for slash-separated paths without redundant separators:
everything before the final `/`, or `.` when there is none (simplified model
of the standard library for the paths in scope). -/
def filepathDir (p : GoStr) : GoStr :=
  match p.reverse.dropWhile (fun b => b ≠ 47) with
  | [] => [46]
  | _ :: rest => rest.reverse

/-- `filepath.Join` of a directory and a file name (no cleaning needed for
the names in scope). -/
def filepathJoin (dir name : GoStr) : GoStr := dir ++ [47] ++ name

/-- The fixed base name `"daemon-auth-token"` used for `am.tokenFile`. -/
def authTokenFileName : GoStr := strBytes "daemon-auth-token"

/-- `AuthManager` state after construction. -/
structure AuthManager where
  secretKey : GoStr
  token : GoStr
  tokenFile : GoStr
  socketPath : GoStr
deriving DecidableEq

/-- `generateToken`: HMAC-SHA256 over socketPath followed by the formatted
start time, hex encoded and truncated to 32 characters. -/
def generateToken (secretKey socketPath startTimeStr : GoStr) : GoStr :=
  (hexEncode (hmacSha256 secretKey (socketPath ++ startTimeStr))).take 32

/-- `loadOrGenerateSecret`: read the secret from `tokenFile` if the file
exists, else take the 32 fresh random bytes and write them to `tokenFile`.
Returns the secret key and the updated file system. -/
def loadOrGenerateSecret (fs : FileSys) (tokenFile freshSecret : GoStr) : GoStr × FileSys :=
  match fs tokenFile with
  | some data => (data, fs)
  | none => (freshSecret, fsWrite fs tokenFile freshSecret)

/-- `saveToken`: write the token string to `tokenFile`. -/
def saveToken (fs : FileSys) (tokenFile token : GoStr) : FileSys :=
  fsWrite fs tokenFile token

/-- `NewAuthManager`: derive `tokenFile` beside the socket, load or generate
the secret, derive the token, and persist the token.  `startTimeStr` is the
RFC3339Nano rendering of the start time; `freshSecret` is the randomness
consumed if no secret file exists. -/
def NewAuthManager (fs : FileSys) (socketPath startTimeStr freshSecret : GoStr) :
    AuthManager × FileSys :=
  let tokenFile := filepathJoin (filepathDir socketPath) authTokenFileName
  let loaded := loadOrGenerateSecret fs tokenFile freshSecret
  let token := generateToken loaded.1 socketPath startTimeStr
  let fs2 := saveToken loaded.2 tokenFile token
  ({ secretKey := loaded.1, token := token, tokenFile := tokenFile, socketPath := socketPath }, fs2)

/-- Modelled from the spec: the operation-name constants `OpPing`, `OpHealth`
and `OpMetrics` are declared outside the provided sources; the spec reserves
the diagnostic operation names `ping`, `health`, `metrics`. -/
def OpPing : GoStr := strBytes "ping"

/-- Modelled from the spec: see `OpPing`. -/
def OpHealth : GoStr := strBytes "health"

/-- Modelled from the spec: see `OpPing`. -/
def OpMetrics : GoStr := strBytes "metrics"

/-- Outcome of `ValidateRequestAuth`; constructors mirror its distinct error
messages (`ok` is the nil error, `missingToken` is "authentication required:
missing auth_token", `invalidToken` is "authentication failed: invalid
auth_token", `signatureInvalid` wraps "signature verification failed"). -/
inductive AuthCheck where
  | ok : AuthCheck
  | missingToken : AuthCheck
  | invalidToken : AuthCheck
  | signatureInvalid : AuthCheck
deriving DecidableEq

/-- `ValidateToken`: `hmac.Equal` of the issued token and the provided one. -/
def ValidateToken (am : AuthManager) (token : GoStr) : Bool :=
  am.token = token

/-- `ValidateRequestAuth`: diagnostic operations bypass auth; otherwise the
token must be present and valid; when `Timestamp > 0` and a signature is
present, the signature is verified with the request timestamp. -/
def ValidateRequestAuth (am : AuthManager) (req : Request) : AuthCheck :=
  if req.Operation = OpPing ∨ req.Operation = OpHealth ∨ req.Operation = OpMetrics then .ok
  else if req.AuthToken = [] then .missingToken
  else if ¬ ValidateToken am req.AuthToken then .invalidToken
  else if 0 < req.Timestamp ∧ req.Signature ≠ [] then
    if VerifyRequest { secretKey := am.secretKey } req req.Timestamp req.Signature then .ok
    else .signatureInvalid
  else .ok

/-! ### RateLimiter (internal/rpc)

Times (`time.Time` instants and `time.Duration`) are embedded as `Int`
nanoseconds; `a.After(b)` is `b < a`, `a.Before(b)` is `a < b`,
`now.Sub(t) > d` is `d < now - t`.  The Go map is embedded as a function
from client id to optional state; each `Allow` call is one atomic step,
mirroring the single exclusive lock acquisition it runs under. -/

abbrev ClientId := GoStr

/-- Per-client state: recorded request instants and the last-seen instant. -/
structure ClientState where
  requests : List Int
  lastSeen : Int
deriving DecidableEq

/-- The limiter state. `maxRequests` is a Go `int`, hence `Int`. -/
structure RateLimiter where
  requests : ClientId → Option ClientState
  maxRequests : Int
  windowDuration : Int
  cleanupInterval : Int
  lastCleanup : Int

/-- Go map assignment `rl.requests[clientID] = state`. -/
def mapInsert (m : ClientId → Option ClientState) (c : ClientId) (s : ClientState) :
    ClientId → Option ClientState :=
  fun q => if q = c then some s else m q

/-- Five minutes in nanoseconds, the hard-coded cleanup interval. -/
def fiveMinutes : Int := 300000000000

/-- `NewRateLimiter` at start instant `now` (the background goroutine is the
same sweep as the opportunistic one and is modelled by `cleanup` steps). -/
def NewRateLimiter (maxRequests windowDuration now : Int) : RateLimiter :=
  { requests := fun _ => none
    maxRequests := maxRequests
    windowDuration := windowDuration
    cleanupInterval := fiveMinutes
    lastCleanup := now }

/-- `cleanup`: delete every client whose `lastSeen` is before
`now - cleanupInterval`. -/
def cleanup (rl : RateLimiter) (now : Int) : RateLimiter :=
  { rl with
    requests := fun c =>
      match rl.requests c with
      | some s => if s.lastSeen < now - rl.cleanupInterval then none else some s
      | none => none }

/-- The body of `Allow` after the opportunistic sweep: fetch-or-create the
client state, drop instants at or before `now - windowDuration`
(`reqTime.After(cutoff)` keeps strictly later ones), deny without recording
at capacity, else record `now`. -/
def allowCore (rl1 : RateLimiter) (clientID : ClientId) (now : Int) : Bool × RateLimiter :=
  let st :=
    match rl1.requests clientID with
    | some s => s
    | none => { requests := [], lastSeen := now }
  let cutoff := now - rl1.windowDuration
  let valid := st.requests.filter (fun t => cutoff < t)
  if rl1.maxRequests ≤ (valid.length : Int) then
    (false, { rl1 with requests := mapInsert rl1.requests clientID { st with requests := valid } })
  else
    (true, { rl1 with
      requests := mapInsert rl1.requests clientID { requests := valid ++ [now], lastSeen := now } })

/-- `Allow`: run the opportunistic sweep when more than `cleanupInterval`
has elapsed since the last one, then the admission body. -/
def Allow (rl : RateLimiter) (clientID : ClientId) (now : Int) : Bool × RateLimiter :=
  allowCore
    (if rl.cleanupInterval < now - rl.lastCleanup then
      { cleanup rl now with lastCleanup := now }
    else rl) clientID now

/-- `Reset`: clear all client state. -/
def Reset (rl : RateLimiter) : RateLimiter :=
  { rl with requests := fun _ => none }

/-- The stored-count invariant: no client's recorded timestamp list is
longer than `maxRequests`. -/
def RLInv (rl : RateLimiter) : Prop :=
  ∀ c s, rl.requests c = some s → (s.requests.length : Int) ≤ rl.maxRequests

/-- The recorded timestamps of a client (empty when absent). -/
def stateRequestsOf (rl : RateLimiter) (c : ClientId) : List Int :=
  match rl.requests c with
  | some s => s.requests
  | none => []

/-! ### FileKeyring (internal/crypto)

Construction takes whether the marker file already exists and the 32 random
bytes drawn for the would-be fresh master key as parameters; directory
creation and the marker write have no effect on key material. -/

/-- The fixed backward-compatibility salt `"beads-federation-key-v1"`. -/
def fedSalt : GoStr := strBytes "beads-federation-key-v1"

/-- `deriveKeyFromDBPath`: SHA-256 over the path followed by the salt,
defaulting to the fixed salt. -/
def deriveKeyFromDBPath (dbPath : GoStr) (salt : Option GoStr) : GoStr :=
  sha256 (dbPath ++ salt.getD fedSalt)

/-- File-backed keyring state. -/
structure FileKeyring where
  keyFile : GoStr
  masterKey : GoStr
deriving DecidableEq

/-- `NewFileKeyring`: an existing marker file re-derives the master key from
the path; otherwise a random master key is generated and then immediately
overwritten with the same path-derived key before the marker is written
(the observed behaviour the spec flags as an inherited trade-off). -/
def NewFileKeyring (keyFileExists : Bool) (randomMasterKey : GoStr)
    (keyFile dbPath : GoStr) : FileKeyring :=
  if keyFileExists then
    { keyFile := keyFile, masterKey := deriveKeyFromDBPath dbPath none }
  else
    let generated := randomMasterKey
    let _ := generated
    { keyFile := keyFile, masterKey := deriveKeyFromDBPath dbPath none }

/-- The service name `"dolt-credentials"`. -/
def doltCredentialsService : GoStr := strBytes "dolt-credentials"

/-- `GetKey`: the master key for the `dolt-credentials` service, else
SHA-256 of the master key followed by `service:user` (the error is always nil). -/
def GetKey (k : FileKeyring) (service user : GoStr) : GoStr :=
  if service = doltCredentialsService then k.masterKey
  else sha256 (k.masterKey ++ service ++ [58] ++ user)

/-- `SecureWipe`: zero a byte buffer in place (returns the overwritten buffer). -/
def SecureWipe (data : List Nat) : List Nat :=
  data.map (fun _ => 0)

/-! ### AES-GCM model (crypto/aes with crypto/cipher)

The standard-library AEAD is external to this repository.  It is modelled
with its interface geometry preserved exactly — 12-byte nonce, 16-byte tag
appended to a ciphertext as long as the plaintext, `Seal` appending to the
supplied prefix, `Open` rejecting a wrong tag — with the keystream and tag
functions as concrete stand-ins keyed by key and nonce. -/

/-- `gcm.NonceSize()` for AES-GCM: 12 bytes. -/
def gcmNonceSize : Nat := 12

/-- The AES-GCM tag overhead: 16 bytes. -/
def gcmTagSize : Nat := 16

/-- Keyed byte mixing used by the keystream and tag stand-ins. -/
def gcmMix (l : List Nat) : Nat :=
  l.foldl (fun a b => (a * 31 + b + 1) % 256) 7

/-- Stand-in CTR keystream of length `n` for the modelled AEAD. -/
def gcmKeystream (key nonce : List Nat) (n : Nat) : List Nat :=
  (List.range n).map (fun i => (gcmMix (key ++ nonce) + i * 17) % 256)

/-- Stand-in 16-byte authentication tag over key, nonce and ciphertext. -/
def gcmTag (key nonce ct : List Nat) : List Nat :=
  (List.range gcmTagSize).map (fun i => (gcmMix (key ++ nonce ++ ct) + i * 29) % 256)

/-- Byte-wise XOR, truncating at the shorter list. -/
def xorBytes (a b : List Nat) : List Nat :=
  List.zipWith (fun x y => x ^^^ y) a b

/-- `gcm.Seal(nil, nonce, pt, nil)`: ciphertext followed by the tag. -/
def gcmSeal (key nonce pt : List Nat) : List Nat :=
  let ct := xorBytes pt (gcmKeystream key nonce pt.length)
  ct ++ gcmTag key nonce ct

/-- `gcm.Open(nil, nonce, data, nil)`: split off the tag, authenticate,
decrypt; `none` is the authentication error. -/
def gcmOpen (key nonce data : List Nat) : Option (List Nat) :=
  if data.length < gcmTagSize then none
  else
    let ct := data.take (data.length - gcmTagSize)
    let tg := data.drop (data.length - gcmTagSize)
    if tg = gcmTag key nonce ct then some (xorBytes ct (gcmKeystream key nonce ct.length))
    else none

/-! ### DoltStore federation credentials (internal/dolt) -/

/-- The slice of `DoltStore` the credential code reads: the database path
and the optionally wired keyring. -/
structure DoltStore where
  dbPath : GoStr
  keyring : Option FileKeyring
deriving DecidableEq

/-- `encryptionKey`: the keyring key for `("dolt-credentials", dbPath)` when a
keyring is wired (its error is always nil and its key never nil), else the
legacy SHA-256 over `dbPath + "beads-federation-key-v1"`. -/
def encryptionKey (s : DoltStore) : GoStr :=
  match s.keyring with
  | some k => GetKey k doltCredentialsService s.dbPath
  | none => sha256 (s.dbPath ++ fedSalt)

/-- `encryptPassword`: empty input yields nil ciphertext; otherwise
`gcm.Seal(nonce, nonce, []byte(password), nil)` = nonce ‖ sealed, with the
fresh random nonce passed in explicitly.  `none` is the nil slice. -/
def encryptPassword (s : DoltStore) (password : GoStr) (nonce : List Nat) : Option (List Nat) :=
  if password = [] then none
  else
    let key := encryptionKey s
    some (nonce ++ gcmSeal key nonce password)

/-- The distinct failures of `decryptPassword`. -/
inductive DecryptError where
  | tooShort : DecryptError
  | openFailed : DecryptError
deriving DecidableEq

/-- `decryptPassword`: empty ciphertext decrypts to the empty string;
shorter than the nonce is "ciphertext too short"; otherwise split the nonce
off and open. -/
def decryptPassword (s : DoltStore) (encrypted : List Nat) : Except DecryptError GoStr :=
  if encrypted.length = 0 then .ok []
  else
    let key := encryptionKey s
    if encrypted.length < gcmNonceSize then .error .tooShort
    else
      let nonce := encrypted.take gcmNonceSize
      let ciphertext := encrypted.drop gcmNonceSize
      match gcmOpen key nonce ciphertext with
      | some plaintext => .ok plaintext
      | none => .error .openFailed

/-- The byte slice a Go caller passes on: `nil` for `none`. -/
def optBytes (o : Option (List Nat)) : List Nat := o.getD []

/-! ### withPeerCredentials (internal/dolt)

The process environment is the pair of credential variables; the global
`federationEnvMutex` serializes the credential-bearing phase, so the wrapped
run is one atomic step and is recorded as an event trace.  The wrapped
operation's outcome and the peer lookup result are parameters. -/

/-- A federation peer as the credential code reads it. -/
structure FederationPeer where
  Name : GoStr
  RemoteURL : GoStr
  Username : GoStr
  Password : GoStr
deriving DecidableEq

/-- The two credential environment variables; `none` is unset. -/
structure EnvState where
  doltRemoteUser : Option GoStr
  doltRemotePassword : Option GoStr
deriving DecidableEq

/-- `setFederationCredentials`: set each variable only when its value is
non-empty. -/
def setFederationCredentials (username password : GoStr) (env : EnvState) : EnvState :=
  let env1 := if username ≠ [] then { env with doltRemoteUser := some username } else env
  if password ≠ [] then { env1 with doltRemotePassword := some password } else env1

/-- The cleanup closure returned by `setFederationCredentials`: unset both
variables. -/
def unsetFederationCredentials (_env : EnvState) : EnvState :=
  { doltRemoteUser := none, doltRemotePassword := none }

/-- Observable events of one `withPeerCredentials` run, in order. -/
inductive FedEvent where
  | mutexLocked : FedEvent
  | credentialsSet : FedEvent
  | fnExecuted : FedEvent
  | lastSyncUpdated : FedEvent
  | credentialsCleared : FedEvent
  | passwordWiped : FedEvent
  | mutexUnlocked : FedEvent
deriving DecidableEq

/-- Result of one `withPeerCredentials` run: returned error, final
environment, event trace, and whether `UpdatePeerLastSync` ran. -/
structure WPCOutcome where
  result : Option GoStr
  env : EnvState
  events : List FedEvent
  lastSyncUpdated : Bool
deriving DecidableEq

/-- `withPeerCredentials`: look up the peer; with a non-empty username or
password, lock the global mutex, set the variables, run `fn`, update
`LastSync` on success, then — via the deferred cleanup on every exit path —
unset both variables, wipe the password when non-empty, and unlock.
`lookupRes` is the `GetFederationPeer` outcome; `fnErr` the wrapped
operation's outcome (`none` is success). -/
def withPeerCredentials (lookupRes : Except GoStr (Option FederationPeer))
    (fnErr : Option GoStr) (env : EnvState) : WPCOutcome :=
  match lookupRes with
  | .error e => { result := some e, env := env, events := [], lastSyncUpdated := false }
  | .ok none =>
      { result := fnErr, env := env, events := [.fnExecuted], lastSyncUpdated := false }
  | .ok (some peer) =>
      if peer.Username ≠ [] ∨ peer.Password ≠ [] then
        let envSet := setFederationCredentials peer.Username peer.Password env
        let updated := fnErr = none
        let envFinal := unsetFederationCredentials envSet
        { result := fnErr
          env := envFinal
          events := [.mutexLocked, .credentialsSet, .fnExecuted] ++
            (if updated then [FedEvent.lastSyncUpdated] else []) ++
            [.credentialsCleared] ++
            (if peer.Password ≠ [] then [FedEvent.passwordWiped] else []) ++
            [.mutexUnlocked]
          lastSyncUpdated := updated }
      else
        { result := fnErr
          env := env
          events := [.fnExecuted] ++ (if fnErr = none then [FedEvent.lastSyncUpdated] else [])
          lastSyncUpdated := fnErr = none }

/-- `e1` occurs strictly before `e2` in the trace `tr`. -/
def eventBefore (tr : List FedEvent) (e1 e2 : FedEvent) : Prop :=
  ∃ i j, i < j ∧ tr.get? i = some e1 ∧ tr.get? j = some e2

/-! ## Theorems -/

/-- C9: `ValidateRequestSize` fails exactly when `len(Args)` exceeds the
10 MiB request limit or the summed lengths of Args, Operation, Actor, Cwd
and ExpectedDB exceed it; `ValidateResponseSize` fails exactly when
`len(Data)` exceeds the 50 MiB response limit; both limits are the fixed
constants 10 MiB and 50 MiB. -/
theorem size_limits_characterization (req : Request) (resp : Response) :
    MaxRequestSize = 10 * 1024 * 1024 ∧ MaxResponseSize = 50 * 1024 * 1024 ∧
    (ValidateRequestSize req ≠ SizeCheck.ok ↔
      (MaxRequestSize < req.Args.length ∨
       MaxRequestSize < req.Args.length + req.Operation.length + req.Actor.length +
         req.Cwd.length + req.ExpectedDB.length)) ∧
    (ValidateResponseSize resp ≠ SizeCheck.ok ↔ MaxResponseSize < resp.Data.length) := by
  refine ⟨rfl, rfl, ?_, ?_⟩
  · simp only [ValidateRequestSize]
    split_ifs with h1 h2 <;> simp_all
  · simp only [ValidateResponseSize]
    split_ifs with h1 <;> simp_all

/-- Witness for C9: a small concrete request passes validation, via the
characterization applied at that request. -/
theorem size_limits_characterization_witness :
    ValidateRequestSize ⟨strBytes "list", strBytes "a", strBytes "bob", strBytes "/w",
      [], [], [], [], 0⟩ = SizeCheck.ok := by
  have h := (size_limits_characterization ⟨strBytes "list", strBytes "a", strBytes "bob",
    strBytes "/w", [], [], [], [], 0⟩ ⟨true, [], []⟩).2.2.1
  by_contra hne
  exact absurd (h.mp hne) (by decide)

/-- C10: the key the keyring returns for service `dolt-credentials` and the
legacy fallback key computed by `encryptionKey` without a keyring agree
byte-for-byte for every database path — both are
SHA-256(dbPath ‖ "beads-federation-key-v1") — so wiring the vault or taking
the fallback never changes the credential encryption key. -/
theorem encryptionKey_keyring_legacy_agree (keyFile dbPath randomKey : GoStr)
    (markerExists : Bool) :
    encryptionKey ⟨dbPath, some (NewFileKeyring markerExists randomKey keyFile dbPath)⟩ =
      encryptionKey ⟨dbPath, none⟩ ∧
    encryptionKey ⟨dbPath, none⟩ = sha256 (dbPath ++ fedSalt) := by
  constructor
  · cases markerExists <;>
      simp [encryptionKey, NewFileKeyring, GetKey, deriveKeyFromDBPath, Option.getD]
  · rfl

/-- C1: refuted on the code — `NewAuthManager` persists the secret key and
the auth token to the SAME file (`am.tokenFile`); `saveToken` overwrites the
just-written 32-byte secret with the token string, and a daemon restart
loads the previous token string as its secret key instead of the original
secret.  The first conjunct evaluates a fresh construction at a concrete
input; the universal conjunct shows the token overwrite happens on every
construction. -/
theorem newAuthManager_token_overwrites_secret :
    (let socketPath := strBytes "/tmp/beads/bd.sock"
     let startStr := strBytes "2026-01-02T03:04:05.000000006Z"
     let secret := List.range 32
     let out := NewAuthManager fsEmpty socketPath startStr secret
     out.1.secretKey = secret ∧
     out.1.tokenFile = strBytes "/tmp/beads/daemon-auth-token" ∧
     out.2 out.1.tokenFile = some out.1.token ∧
     out.2 out.1.tokenFile ≠ some secret ∧
     (NewAuthManager out.2 socketPath startStr (List.replicate 32 9)).1.secretKey =
       out.1.token) ∧
    (∀ (fs : FileSys) (socketPath startTimeStr freshSecret : GoStr),
      (NewAuthManager fs socketPath startTimeStr freshSecret).2
          ((NewAuthManager fs socketPath startTimeStr freshSecret).1.tokenFile) =
        some ((NewAuthManager fs socketPath startTimeStr freshSecret).1.token)) := by
  constructor
  · decide
  · intro fs socketPath startTimeStr freshSecret
    simp [NewAuthManager, saveToken, fsWrite]

/-- C2: refuted on the code — the canonical payload joins fields with an
unescaped `|`, so two requests with different authenticated field tuples can
produce the same canonical payload and hence the same signature under the
same key. -/
theorem signRequestPayload_collision :
    let r1 : Request :=
      { Operation := strBytes "sync|peer", Args := strBytes "x", Actor := strBytes "alice",
        Cwd := strBytes "/w", ExpectedDB := [], RequestID := [], AuthToken := [],
        Signature := [], Timestamp := 0 }
    let r2 : Request := { r1 with Operation := strBytes "sync", Args := strBytes "peer|x" }
    r1.Operation ≠ r2.Operation ∧ r1.Args ≠ r2.Args ∧
    signRequestPayload r1 5 = signRequestPayload r2 5 ∧
    SignRequest { secretKey := List.range 32 } r1 5 =
      SignRequest { secretKey := List.range 32 } r2 5 := by
  decide

/-- C3: refuted on the code — a request with a valid token, a NONZERO but
negative `Timestamp`, and a non-empty (bogus) `Signature` is accepted
without any signature verification, because the code gates verification on
`Timestamp > 0`, not on the timestamp being nonzero. -/
theorem validateRequestAuth_negative_timestamp_skips_signature :
    let am : AuthManager :=
      { secretKey := List.range 32, token := strBytes "tok", tokenFile := [], socketPath := [] }
    let req : Request :=
      { Operation := strBytes "list", Args := [], Actor := [], Cwd := [], ExpectedDB := [],
        RequestID := [], AuthToken := strBytes "tok", Signature := strBytes "bogus",
        Timestamp := -1 }
    ValidateRequestAuth am req = AuthCheck.ok ∧
    req.Timestamp ≠ 0 ∧ req.Signature ≠ [] ∧
    VerifyRequest { secretKey := am.secretKey } req req.Timestamp req.Signature = false := by
  decide

/-- C8: refuted on the code — `GetKey` returns the master key verbatim for
service `dolt-credentials` with ANY user, so the pair
`("dolt-credentials", "bob")`, which differs from `("dolt-credentials", dbPath)`,
does not get the SHA-256-derived key the claim promises for every other pair. -/
theorem getKey_dolt_credentials_other_user_returns_master :
    let dbPath := strBytes "/tmp/beads.db"
    let k := NewFileKeyring false (List.replicate 32 7) (strBytes "/tmp/keyring") dbPath
    let other := strBytes "bob"
    other ≠ dbPath ∧
    GetKey k doltCredentialsService other = k.masterKey ∧
    GetKey k doltCredentialsService other ≠
      sha256 (k.masterKey ++ doltCredentialsService ++ [58] ++ other) := by
  decide

/-! ### The modelled AEAD is a correct AEAD -/

theorem length_gcmKeystream (key nonce : List Nat) (n : Nat) :
    (gcmKeystream key nonce n).length = n := by
  simp [gcmKeystream]

theorem length_gcmTag (key nonce ct : List Nat) :
    (gcmTag key nonce ct).length = gcmTagSize := by
  simp [gcmTag]

theorem length_xorBytes (p k : List Nat) : (xorBytes p k).length = min p.length k.length := by
  simp [xorBytes]

theorem xorBytes_cancel : ∀ (p k : List Nat), p.length ≤ k.length →
    xorBytes (xorBytes p k) k = p
  | [], k, _ => by simp [xorBytes]
  | _ :: _, [], h => by simp at h
  | x :: xs, y :: ys, h => by
    have ih := xorBytes_cancel xs ys (by simpa using h)
    simp only [xorBytes, List.zipWith_cons_cons] at ih ⊢
    simp [ih, Nat.xor_cancel_right]

theorem gcmOpen_gcmSeal (key nonce pt : List Nat) :
    gcmOpen key nonce (gcmSeal key nonce pt) = some pt := by
  have hct : (xorBytes pt (gcmKeystream key nonce pt.length)).length = pt.length := by
    simp [length_xorBytes, length_gcmKeystream]
  simp only [gcmOpen, gcmSeal, List.length_append, hct, length_gcmTag]
  rw [if_neg (by omega)]
  have hsub : pt.length + gcmTagSize - gcmTagSize = pt.length := by omega
  rw [hsub, List.take_left' hct, List.drop_left' hct, if_pos rfl, hct,
    xorBytes_cancel pt _ (by rw [length_gcmKeystream])]

/-- C7: for every password `p` (including the empty string) and any nonce of
the cipher's nonce size chosen during encryption,
`decryptPassword (encryptPassword p) = p`; encrypting the empty password
yields no ciphertext (nil), never an encrypted empty string. -/
theorem encryptPassword_decryptPassword_roundtrip (s : DoltStore) (p : GoStr)
    (nonce : List Nat) (hn : nonce.length = gcmNonceSize) :
    decryptPassword s (optBytes (encryptPassword s p nonce)) = Except.ok p ∧
    (p = [] → encryptPassword s p nonce = none) := by
  refine ⟨?_, fun hp => by simp [encryptPassword, hp]⟩
  by_cases hp : p = []
  · subst hp
    simp [encryptPassword, optBytes, decryptPassword]
  · have hplen : 0 < p.length := List.length_pos.mpr hp
    have hslen : (gcmSeal (encryptionKey s) nonce p).length = p.length + gcmTagSize := by
      simp [gcmSeal, List.length_append, length_xorBytes, length_gcmKeystream, length_gcmTag]
    simp only [encryptPassword, if_neg hp, optBytes, Option.getD]
    simp only [decryptPassword, List.length_append, hn, hslen]
    rw [if_neg (by simp [gcmNonceSize, gcmTagSize]),
      if_neg (by simp [gcmNonceSize]),
      List.take_left' hn, List.drop_left' hn, gcmOpen_gcmSeal]

/-- Witness for C7 at a concrete store, password and 12-byte nonce. -/
theorem encryptPassword_decryptPassword_roundtrip_witness :
    (List.range 12).length = gcmNonceSize ∧
    decryptPassword ⟨strBytes "/db", none⟩
        (optBytes (encryptPassword ⟨strBytes "/db", none⟩ (strBytes "hunter2") (List.range 12))) =
      Except.ok (strBytes "hunter2") := by
  exact ⟨by decide,
    (encryptPassword_decryptPassword_roundtrip ⟨strBytes "/db", none⟩ (strBytes "hunter2")
      (List.range 12) (by decide)).1⟩

/-- C6: for every peer with a non-empty username or password and every
wrapped operation outcome, `withPeerCredentials` leaves both
`DOLT_REMOTE_USER` and `DOLT_REMOTE_PASSWORD` unset after the call, clears
them and wipes the password (when non-empty) before releasing the global
federation mutex on every exit path, propagates the operation's outcome,
and updates the peer's `LastSync` exactly on success. -/
theorem withPeerCredentials_cleanup_guarantees (peer : FederationPeer)
    (fnErr : Option GoStr) (env : EnvState)
    (hcred : peer.Username ≠ [] ∨ peer.Password ≠ []) :
    (withPeerCredentials (.ok (some peer)) fnErr env).env.doltRemoteUser = none ∧
    (withPeerCredentials (.ok (some peer)) fnErr env).env.doltRemotePassword = none ∧
    (withPeerCredentials (.ok (some peer)) fnErr env).result = fnErr ∧
    eventBefore (withPeerCredentials (.ok (some peer)) fnErr env).events
      .credentialsCleared .mutexUnlocked ∧
    (peer.Password ≠ [] →
      eventBefore (withPeerCredentials (.ok (some peer)) fnErr env).events
        .passwordWiped .mutexUnlocked) ∧
    ((withPeerCredentials (.ok (some peer)) fnErr env).lastSyncUpdated = true ↔ fnErr = none) := by
  simp only [withPeerCredentials, if_pos hcred]
  by_cases hupd : fnErr = none <;> by_cases hpw : peer.Password = [] <;>
    simp only [hupd, hpw, if_pos, if_neg, ite_true, ite_false, unsetFederationCredentials] <;>
    simp_all [eventBefore] <;>
    first
    | exact ⟨⟨3, 5, by omega, rfl, rfl⟩, ⟨4, 5, by omega, rfl, rfl⟩⟩
    | exact ⟨3, 4, by omega, rfl, rfl⟩
    | exact ⟨⟨4, 6, by omega, rfl, rfl⟩, ⟨5, 6, by omega, rfl, rfl⟩⟩
    | exact ⟨4, 5, by omega, rfl, rfl⟩

/-- Witness for C6 at a concrete peer, failing operation and dirty
environment. -/
theorem withPeerCredentials_cleanup_guarantees_witness :
    ((strBytes "alice" : GoStr) ≠ [] ∨ (strBytes "pw" : GoStr) ≠ []) ∧
    (withPeerCredentials
        (.ok (some ⟨strBytes "hub", strBytes "http://hub", strBytes "alice", strBytes "pw"⟩))
        (some (strBytes "net timeout")) ⟨some (strBytes "stale"), none⟩).env.doltRemoteUser =
      none := by
  refine ⟨by decide, ?_⟩
  exact (withPeerCredentials_cleanup_guarantees
    ⟨strBytes "hub", strBytes "http://hub", strBytes "alice", strBytes "pw"⟩
    (some (strBytes "net timeout")) ⟨some (strBytes "stale"), none⟩ (by decide)).1

/-! ### Rate limiter lemmas -/

theorem cleanup_requests (rl : RateLimiter) (now : Int) (c : ClientId) :
    (cleanup rl now).requests c =
      match rl.requests c with
      | some s => if s.lastSeen < now - rl.cleanupInterval then none else some s
      | none => none := rfl

theorem rlinv_cleanup (rl : RateLimiter) (now : Int) (h : RLInv rl) :
    RLInv (cleanup rl now) := by
  intro c s hs
  rw [cleanup_requests] at hs
  cases hfind : rl.requests c with
  | none => rw [hfind] at hs; exact absurd hs (by simp)
  | some s0 =>
    rw [hfind] at hs
    dsimp only at hs
    by_cases hc : s0.lastSeen < now - rl.cleanupInterval
    · rw [if_pos hc] at hs; exact absurd hs (by simp)
    · rw [if_neg hc] at hs
      injection hs with h2
      subst h2
      exact h c s0 hfind

theorem allowCore_preserves (rl1 : RateLimiter) (c : ClientId) (now : Int) :
    (allowCore rl1 c now).2.maxRequests = rl1.maxRequests ∧
    (allowCore rl1 c now).2.windowDuration = rl1.windowDuration ∧
    (allowCore rl1 c now).2.cleanupInterval = rl1.cleanupInterval ∧
    (allowCore rl1 c now).2.lastCleanup = rl1.lastCleanup := by
  simp only [allowCore]
  cases rl1.requests c <;> dsimp only <;> split <;> exact ⟨rfl, rfl, rfl, rfl⟩

theorem allowCore_deny (rl1 : RateLimiter) (c : ClientId) (now : Int) (st : ClientState)
    (hfind : rl1.requests c = some st)
    (hcap : rl1.maxRequests ≤
      ((st.requests.filter (fun t => now - rl1.windowDuration < t)).length : Int)) :
    (allowCore rl1 c now).1 = false ∧
    (allowCore rl1 c now).2.requests c =
      some ⟨st.requests.filter (fun t => now - rl1.windowDuration < t), st.lastSeen⟩ := by
  simp only [allowCore, hfind]
  rw [if_pos hcap]
  exact ⟨rfl, by simp [mapInsert]⟩

theorem allowCore_grant (rl1 : RateLimiter) (c : ClientId) (now : Int) (st : ClientState)
    (hfind : rl1.requests c = some st)
    (hcap : ¬ rl1.maxRequests ≤
      ((st.requests.filter (fun t => now - rl1.windowDuration < t)).length : Int)) :
    (allowCore rl1 c now).1 = true ∧
    (allowCore rl1 c now).2.requests c =
      some ⟨st.requests.filter (fun t => now - rl1.windowDuration < t) ++ [now], now⟩ := by
  simp only [allowCore, hfind]
  rw [if_neg hcap]
  exact ⟨rfl, by simp [mapInsert]⟩

theorem allowCore_fresh (rl1 : RateLimiter) (c : ClientId) (now : Int)
    (hfind : rl1.requests c = none) (hpos : 0 < rl1.maxRequests) :
    (allowCore rl1 c now).1 = true ∧
    (allowCore rl1 c now).2.requests c = some ⟨[now], now⟩ := by
  simp only [allowCore, hfind, List.filter_nil, List.length_nil]
  rw [if_neg (by omega)]
  exact ⟨rfl, by simp [mapInsert]⟩

theorem allowCore_fresh_deny (rl1 : RateLimiter) (c : ClientId) (now : Int)
    (hfind : rl1.requests c = none) (hcap : rl1.maxRequests ≤ (0 : Int)) :
    (allowCore rl1 c now).1 = false := by
  simp only [allowCore, hfind, List.filter_nil, List.length_nil]
  rw [if_pos (by simpa using hcap)]

theorem filter_idem (l : List Int) (p : Int → Bool) : (l.filter p).filter p = l.filter p :=
  List.filter_eq_self.mpr (fun _ ha => List.of_mem_filter ha)

theorem rlinv_allowCore (rl1 : RateLimiter) (c : ClientId) (now : Int)
    (hmax : 0 ≤ rl1.maxRequests) (h : RLInv rl1) : RLInv (allowCore rl1 c now).2 := by
  intro c0 s0 hs
  have hM : (allowCore rl1 c now).2.maxRequests = rl1.maxRequests :=
    (allowCore_preserves rl1 c now).1
  rw [hM]
  cases hfind : rl1.requests c with
  | none =>
    simp only [allowCore, hfind, List.filter_nil, List.length_nil] at hs
    by_cases hcap : rl1.maxRequests ≤ ((0 : Nat) : Int)
    · rw [if_pos hcap] at hs
      simp only [mapInsert] at hs
      by_cases hc0 : c0 = c
      · rw [if_pos hc0] at hs
        injection hs with h2
        subst h2
        simpa using hmax
      · rw [if_neg hc0] at hs
        exact h c0 s0 hs
    · rw [if_neg hcap] at hs
      simp only [mapInsert] at hs
      by_cases hc0 : c0 = c
      · rw [if_pos hc0] at hs
        injection hs with h2
        subst h2
        simp only [List.length_append, List.length_cons, List.length_nil]
        omega
      · rw [if_neg hc0] at hs
        exact h c0 s0 hs
  | some st =>
    have hb := h c st hfind
    simp only [allowCore, hfind] at hs
    by_cases hcap : rl1.maxRequests ≤
        ((st.requests.filter (fun t => now - rl1.windowDuration < t)).length : Int)
    · rw [if_pos hcap] at hs
      simp only [mapInsert] at hs
      by_cases hc0 : c0 = c
      · rw [if_pos hc0] at hs
        injection hs with h2
        subst h2
        have := List.length_filter_le (fun t => decide (now - rl1.windowDuration < t)) st.requests
        simp only []
        omega
      · rw [if_neg hc0] at hs
        exact h c0 s0 hs
    · rw [if_neg hcap] at hs
      simp only [mapInsert] at hs
      by_cases hc0 : c0 = c
      · rw [if_pos hc0] at hs
        injection hs with h2
        subst h2
        simp only [List.length_append, List.length_cons, List.length_nil]
        omega
      · rw [if_neg hc0] at hs
        exact h c0 s0 hs

theorem rlinv_allow (rl : RateLimiter) (c : ClientId) (now : Int)
    (hmax : 0 ≤ rl.maxRequests) (h : RLInv rl) : RLInv (Allow rl c now).2 := by
  unfold Allow
  by_cases hsw : rl.cleanupInterval < now - rl.lastCleanup
  · rw [if_pos hsw]
    exact rlinv_allowCore _ c now hmax (rlinv_cleanup rl now h)
  · rw [if_neg hsw]
    exact rlinv_allowCore rl c now hmax h

/-- C4: refuted on the code as universally stated — when `windowDuration`
exceeds the hard-coded 5-minute `cleanupInterval`, the opportunistic sweep
inside `Allow` can delete an idle at-capacity client and the next call is
ADMITTED although all its recorded timestamps are still inside the window.
Concretely: a 2-per-1-hour limiter admits client `"c"` at 1s and 2s; the
next `Allow` at 10min first sweeps the client away (`lastSeen` 2s is older
than now minus 5min) and then returns true. -/
theorem allow_sweep_admits_beyond_capacity :
    (Allow (NewRateLimiter 2 3600000000000 0) (strBytes "c") 1000000000).1 = true ∧
    (Allow (Allow (NewRateLimiter 2 3600000000000 0) (strBytes "c") 1000000000).2
      (strBytes "c") 2000000000).1 = true ∧
    (Allow (Allow (NewRateLimiter 2 3600000000000 0) (strBytes "c") 1000000000).2
      (strBytes "c") 2000000000).2.requests (strBytes "c") =
      some ⟨[1000000000, 2000000000], 2000000000⟩ ∧
    ((([1000000000, 2000000000] : List Int).filter
        (fun t => 600000000000 - (3600000000000 : Int) < t)).length : Int) = 2 ∧
    (Allow (Allow (Allow (NewRateLimiter 2 3600000000000 0) (strBytes "c") 1000000000).2
      (strBytes "c") 2000000000).2 (strBytes "c") 600000000000).1 = true := by
  decide

/-- C4 amended: for a client whose recorded in-window timestamps number
exactly `maxRequests` AND whose entry survives the opportunistic sweep
(`lastSeen` within `cleanupInterval` of `now` — automatic whenever
`windowDuration` is at most the 5-minute `cleanupInterval`), the next
`Allow` returns false and records nothing for the client — its stored list
becomes exactly the filtered old timestamps, `lastSeen` untouched; once the
clock advances so every recorded timestamp is at least a full window old,
a subsequent `Allow` returns true again (old timestamps are dropped before
the count is checked). -/
theorem allow_denies_at_capacity_allows_after_window (rl : RateLimiter) (c : ClientId)
    (st : ClientState) (now now2 : Int) (hfind : rl.requests c = some st) :
    (now - rl.cleanupInterval ≤ st.lastSeen →
      ((st.requests.filter (fun t => now - rl.windowDuration < t)).length : Int) =
        rl.maxRequests →
      (Allow rl c now).1 = false ∧
      (Allow rl c now).2.requests c =
        some ⟨st.requests.filter (fun t => now - rl.windowDuration < t), st.lastSeen⟩) ∧
    ((∀ t ∈ st.requests, t ≤ now2 - rl.windowDuration) → 0 < rl.maxRequests →
      (Allow rl c now2).1 = true) := by
  constructor
  · intro hfresh hcount
    unfold Allow
    by_cases hsw : rl.cleanupInterval < now - rl.lastCleanup
    · rw [if_pos hsw]
      have hfind1 : ({ cleanup rl now with lastCleanup := now } : RateLimiter).requests c =
          some st := by
        show (cleanup rl now).requests c = some st
        rw [cleanup_requests, hfind]
        dsimp only
        rw [if_neg (by omega)]
      exact allowCore_deny _ c now st hfind1 (le_of_eq hcount.symm)
    · rw [if_neg hsw]
      exact allowCore_deny rl c now st hfind (le_of_eq hcount.symm)
  · intro hall hpos
    have hempty : st.requests.filter (fun t => now2 - rl.windowDuration < t) = [] :=
      List.filter_eq_nil_iff.mpr (fun a ha => by
        have := hall a ha
        simp only [decide_eq_true_eq]
        omega)
    unfold Allow
    by_cases hsw : rl.cleanupInterval < now2 - rl.lastCleanup
    · rw [if_pos hsw]
      by_cases hstale : st.lastSeen < now2 - rl.cleanupInterval
      · have hfind1 : ({ cleanup rl now2 with lastCleanup := now2 } : RateLimiter).requests c =
            none := by
          show (cleanup rl now2).requests c = none
          rw [cleanup_requests, hfind]
          dsimp only
          rw [if_pos hstale]
        exact (allowCore_fresh _ c now2 hfind1 hpos).1
      · have hfind1 : ({ cleanup rl now2 with lastCleanup := now2 } : RateLimiter).requests c =
            some st := by
          show (cleanup rl now2).requests c = some st
          rw [cleanup_requests, hfind]
          dsimp only
          rw [if_neg hstale]
        refine (allowCore_grant _ c now2 st hfind1 ?_).1
        show ¬ rl.maxRequests ≤
          ((st.requests.filter (fun t => now2 - rl.windowDuration < t)).length : Int)
        rw [hempty]
        simpa using hpos
    · rw [if_neg hsw]
      refine (allowCore_grant rl c now2 st hfind ?_).1
      rw [hempty]
      simpa using hpos

/-- Witness for C4: a limiter allowing 2 per 10ns serves client `"c"` at
instants 1 and 2, denies the third call at 3, and allows again at 20. -/
theorem allow_denies_at_capacity_allows_after_window_witness :
    (Allow (Allow (Allow (NewRateLimiter 2 10 0) (strBytes "c") 1).2 (strBytes "c") 2).2
      (strBytes "c") 3).1 = false ∧
    (Allow (Allow (Allow (NewRateLimiter 2 10 0) (strBytes "c") 1).2 (strBytes "c") 2).2
      (strBytes "c") 20).1 = true := by
  have T := allow_denies_at_capacity_allows_after_window
    (Allow (Allow (NewRateLimiter 2 10 0) (strBytes "c") 1).2 (strBytes "c") 2).2
    (strBytes "c") ⟨[1, 2], 2⟩ 3 20 (by decide)
  exact ⟨(T.1 (by decide) (by decide)).1, T.2 (by decide) (by decide)⟩

/-- C5: the stored-count invariant — no client's recorded timestamp list,
hence also its recorded timestamps within ANY trailing window, ever exceeds
`maxRequests` — is preserved by `Allow`, `cleanup` and `Reset`; and because
the check-then-record of `Allow` is one atomic step (one exclusive lock
acquisition in the source, serialized here as consecutive steps), two
`Allow` calls for the same client cannot both be admitted when only one
slot remains. -/
theorem rateLimiter_invariant_and_atomic_admission :
    (∀ (rl : RateLimiter) (c : ClientId) (now : Int),
      0 ≤ rl.maxRequests → RLInv rl → RLInv (Allow rl c now).2) ∧
    (∀ (rl : RateLimiter) (now : Int), RLInv rl → RLInv (cleanup rl now)) ∧
    (∀ rl : RateLimiter, RLInv rl → RLInv (Reset rl)) ∧
    (∀ (rl : RateLimiter) (c : ClientId) (s : ClientState) (t0 : Int), RLInv rl →
      rl.requests c = some s →
      ((s.requests.filter (fun t => t0 - rl.windowDuration < t ∧ t ≤ t0)).length : Int) ≤
        rl.maxRequests) ∧
    (∀ (rl : RateLimiter) (c : ClientId) (now : Int),
      0 < rl.windowDuration → now - rl.lastCleanup ≤ rl.cleanupInterval →
      rl.maxRequests ≤
        (((stateRequestsOf rl c).filter (fun t => now - rl.windowDuration < t)).length : Int) + 1 →
      ¬ ((Allow rl c now).1 = true ∧ (Allow (Allow rl c now).2 c now).1 = true)) := by
  refine ⟨rlinv_allow, rlinv_cleanup, ?_, ?_, ?_⟩
  · intro rl h c s hs
    exact absurd hs (by simp [Reset])
  · intro rl c s t0 h hfind
    have h1 := h c s hfind
    have h2 : (s.requests.filter (fun t => t0 - rl.windowDuration < t ∧ t ≤ t0)).length ≤
        s.requests.length := List.length_filter_le _ _
    omega
  · intro rl c now hw hnf hslot hboth
    obtain ⟨h1, h2⟩ := hboth
    have hsw : ¬ rl.cleanupInterval < now - rl.lastCleanup := by omega
    unfold Allow at h1 h2
    rw [if_neg hsw] at h1 h2
    have hP := allowCore_preserves rl c now
    have hsw2 : ¬ (allowCore rl c now).2.cleanupInterval <
        now - (allowCore rl c now).2.lastCleanup := by
      rw [hP.2.2.1, hP.2.2.2]
      omega
    rw [if_neg hsw2] at h2
    have hsingleton : [now].filter (fun t => now - rl.windowDuration < t) = [now] := by
      apply List.filter_eq_self.mpr
      intro a ha
      simp only [List.mem_singleton] at ha
      subst ha
      simp only [decide_eq_true_eq]
      omega
    cases hfind : rl.requests c with
    | none =>
      have hstate : stateRequestsOf rl c = [] := by simp [stateRequestsOf, hfind]
      rw [hstate] at hslot
      simp only [List.filter_nil, List.length_nil] at hslot
      by_cases hpos : 0 < rl.maxRequests
      · have hF := allowCore_fresh rl c now hfind hpos
        have hcap2 : (allowCore rl c now).2.maxRequests ≤
            ((([now].filter
              (fun t => now - (allowCore rl c now).2.windowDuration < t)).length : Int)) := by
          rw [hP.1, hP.2.1, hsingleton]
          simp only [List.length_cons, List.length_nil]
          omega
        have hd := (allowCore_deny _ c now ⟨[now], now⟩ hF.2 hcap2).1
        rw [hd] at h2
        simp at h2
      · have hd := allowCore_fresh_deny rl c now hfind (by omega)
        rw [hd] at h1
        simp at h1
    | some s =>
      have hstate : stateRequestsOf rl c = s.requests := by simp [stateRequestsOf, hfind]
      rw [hstate] at hslot
      by_cases hcap : rl.maxRequests ≤
          ((s.requests.filter (fun t => now - rl.windowDuration < t)).length : Int)
      · have hd := (allowCore_deny rl c now s hfind hcap).1
        rw [hd] at h1
        simp at h1
      · have hA := allowCore_grant rl c now s hfind hcap
        have hfilt : (s.requests.filter (fun t => now - rl.windowDuration < t) ++ [now]).filter
            (fun t => now - rl.windowDuration < t) =
            s.requests.filter (fun t => now - rl.windowDuration < t) ++ [now] := by
          rw [List.filter_append, filter_idem, hsingleton]
        have hcap2 : (allowCore rl c now).2.maxRequests ≤
            ((((s.requests.filter (fun t => now - rl.windowDuration < t) ++ [now]).filter
              (fun t => now - (allowCore rl c now).2.windowDuration < t)).length : Int)) := by
          rw [hP.1, hP.2.1, hfilt]
          simp only [List.length_append, List.length_cons, List.length_nil]
          omega
        have hd := (allowCore_deny _ c now _ hA.2 hcap2).1
        rw [hd] at h2
        simp at h2

/-- Witness for C5: with a 2-per-10ns limiter that has already admitted
client `"c"` once (one slot remains after one more admission), two
consecutive `Allow` steps at the same instant are not both admitted. -/
theorem rateLimiter_invariant_and_atomic_admission_witness :
    ¬ ((Allow (Allow (NewRateLimiter 2 10 0) (strBytes "c") 1).2 (strBytes "c") 3).1 = true ∧
       (Allow (Allow (Allow (NewRateLimiter 2 10 0) (strBytes "c") 1).2 (strBytes "c") 3).2
         (strBytes "c") 3).1 = true) := by
  exact rateLimiter_invariant_and_atomic_admission.2.2.2.2
    (Allow (NewRateLimiter 2 10 0) (strBytes "c") 1).2 (strBytes "c") 3
    (by decide) (by decide) (by decide)

/-! ### Decimal rendering lemmas -/

theorem decDigitsAux_lt_ten : ∀ (fuel n : Nat), ∀ d ∈ decDigitsAux fuel n, d < 10 := by
  intro fuel
  induction fuel with
  | zero => intro n d hd; simp [decDigitsAux] at hd
  | succ k ih =>
    intro n d hd
    simp only [decDigitsAux] at hd
    by_cases hn : n = 0
    · simp [hn] at hd
    · rw [if_neg hn] at hd
      rcases List.mem_cons.mp hd with h | h
      · subst h; exact Nat.mod_lt n (by norm_num)
      · exact ih (n / 10) d h

theorem ofDecDigits_decDigitsAux : ∀ (fuel n : Nat), n ≤ fuel →
    ofDecDigits (decDigitsAux fuel n) = n := by
  intro fuel
  induction fuel with
  | zero =>
    intro n h
    have hn : n = 0 := by omega
    subst hn
    simp [decDigitsAux, ofDecDigits]
  | succ k ih =>
    intro n h
    simp only [decDigitsAux]
    by_cases hn : n = 0
    · simp [hn, ofDecDigits]
    · rw [if_neg hn]
      have hdiv : n / 10 < n := Nat.div_lt_self (Nat.pos_of_ne_zero hn) (by norm_num)
      have hih := ih (n / 10) (by omega)
      simp only [ofDecDigits, hih]
      omega

theorem decDigits_inj (m n : Nat) (h : decDigits m = decDigits n) : m = n := by
  have hm := ofDecDigits_decDigitsAux m m le_rfl
  have hn := ofDecDigits_decDigitsAux n n le_rfl
  rw [decDigits, decDigits] at h
  rw [← hm, ← hn, h]

theorem mem_natToBytes (n x : Nat) (hx : x ∈ natToBytes n) : 48 ≤ x ∧ x < 58 := by
  unfold natToBytes at hx
  by_cases hn : n = 0
  · rw [if_pos hn] at hx
    simp at hx
    omega
  · rw [if_neg hn] at hx
    rw [List.mem_reverse] at hx
    rcases List.mem_map.mp hx with ⟨d, hd, rfl⟩
    have := decDigitsAux_lt_ten n n d hd
    omega

theorem natToBytes_inj (m n : Nat) (h : natToBytes m = natToBytes n) : m = n := by
  unfold natToBytes at h
  by_cases hm : m = 0 <;> by_cases hn : n = 0
  · omega
  · rw [if_pos hm, if_neg hn] at h
    have hmap : (decDigits n).map (fun d => d + 48) = [48] := by
      have h2 := congrArg List.reverse h
      simpa using h2.symm
    exfalso
    cases hdd : decDigits n with
    | nil => rw [hdd] at hmap; simp at hmap
    | cons d ds =>
      rw [hdd] at hmap
      simp only [List.map_cons, List.cons.injEq] at hmap
      have hds : ds = [] := by simpa using hmap.2
      have hd0 : d = 0 := by omega
      have hv := ofDecDigits_decDigitsAux n n le_rfl
      rw [show decDigitsAux n n = decDigits n from rfl, hdd, hds, hd0] at hv
      simp [ofDecDigits] at hv
      exact hn hv.symm
  · rw [if_neg hm, if_pos hn] at h
    have hmap : (decDigits m).map (fun d => d + 48) = [48] := by
      have h2 := congrArg List.reverse h
      simpa using h2
    exfalso
    cases hdd : decDigits m with
    | nil => rw [hdd] at hmap; simp at hmap
    | cons d ds =>
      rw [hdd] at hmap
      simp only [List.map_cons, List.cons.injEq] at hmap
      have hds : ds = [] := by simpa using hmap.2
      have hd0 : d = 0 := by omega
      have hv := ofDecDigits_decDigitsAux m m le_rfl
      rw [show decDigitsAux m m = decDigits m from rfl, hdd, hds, hd0] at hv
      simp [ofDecDigits] at hv
      exact hm hv.symm
  · rw [if_neg hm, if_neg hn] at h
    have h2 := congrArg List.reverse h
    simp only [List.reverse_reverse] at h2
    have finj : Function.Injective (fun d : Nat => d + 48) := fun a b hab => by
      simpa using hab
    have h3 : decDigits m = decDigits n := List.map_injective_iff.mpr finj h2
    exact decDigits_inj m n h3

theorem pipe_not_mem_natToBytes (n : Nat) : pipeByte ∉ natToBytes n := by
  intro hmem
  have := mem_natToBytes n pipeByte hmem
  rw [show pipeByte = 124 from rfl] at this
  omega

theorem pipe_not_mem_intToBytes (i : Int) : pipeByte ∉ intToBytes i := by
  unfold intToBytes
  by_cases hi : i < 0
  · rw [if_pos hi]
    intro hmem
    rcases List.mem_cons.mp hmem with h | h
    · exact absurd h (by rw [show pipeByte = 124 from rfl]; omega)
    · exact pipe_not_mem_natToBytes _ h
  · rw [if_neg hi]
    exact pipe_not_mem_natToBytes _

theorem intToBytes_inj (i j : Int) (h : intToBytes i = intToBytes j) : i = j := by
  unfold intToBytes at h
  by_cases hi : i < 0 <;> by_cases hj : j < 0
  · rw [if_pos hi, if_pos hj] at h
    injection h with h1 h2
    have := natToBytes_inj _ _ h2
    omega
  · rw [if_pos hi, if_neg hj] at h
    have h45 : (45 : Nat) ∈ natToBytes j.toNat := by
      rw [← h]; exact List.mem_cons_self _ _
    have := mem_natToBytes _ _ h45
    omega
  · rw [if_neg hi, if_pos hj] at h
    have h45 : (45 : Nat) ∈ natToBytes i.toNat := by
      rw [h]; exact List.mem_cons_self _ _
    have := mem_natToBytes _ _ h45
    omega
  · rw [if_neg hi, if_neg hj] at h
    have := natToBytes_inj _ _ h
    omega

/-! ### Delimiter-separated concatenation -/

theorem append_sep_inj {c : Nat} : ∀ {a b r s : List Nat}, c ∉ a → c ∉ b →
    a ++ c :: r = b ++ c :: s → a = b ∧ r = s := by
  intro a
  induction a with
  | nil =>
    intro b r s _ hb h
    cases b with
    | nil =>
      simp only [List.nil_append] at h
      injection h with _ h2
      exact ⟨rfl, h2⟩
    | cons y ys =>
      simp only [List.nil_append, List.cons_append] at h
      injection h with h1 _
      exact absurd (by rw [← h1]; exact List.mem_cons_self _ _) hb
  | cons x xs ih =>
    intro b r s ha hb h
    cases b with
    | nil =>
      simp only [List.cons_append, List.nil_append] at h
      injection h with h1 _
      exact absurd (by rw [h1]; exact List.mem_cons_self _ _) ha
    | cons y ys =>
      simp only [List.cons_append] at h
      injection h with h1 h2
      have ha2 : c ∉ xs := fun hx => ha (List.mem_cons_of_mem _ hx)
      have hb2 : c ∉ ys := fun hx => hb (List.mem_cons_of_mem _ hx)
      obtain ⟨e1, e2⟩ := ih ha2 hb2 h2
      exact ⟨by rw [h1, e1], e2⟩

theorem signRequestPayload_eq (req : Request) (t : Int) :
    signRequestPayload req t =
      req.Operation ++ pipeByte :: (req.Args ++ pipeByte :: (intToBytes t ++
        pipeByte :: (req.Actor ++ pipeByte :: req.Cwd))) := by
  simp [signRequestPayload, List.append_assoc]

/-- C2 amended: the collision is forced by delimiter-containing field
values; when none of the signed fields (operation, args, actor, cwd) of two
requests contains the `|` delimiter byte, equal canonical payloads imply
equal authenticated field tuples and equal timestamps (the timestamp's
decimal rendering can never contain the delimiter). -/
theorem signRequestPayload_injective_without_delimiter (r1 r2 : Request) (t1 t2 : Int)
    (h1 : pipeByte ∉ r1.Operation) (h2 : pipeByte ∉ r1.Args)
    (h3 : pipeByte ∉ r1.Actor) (_h4 : pipeByte ∉ r1.Cwd)
    (h5 : pipeByte ∉ r2.Operation) (h6 : pipeByte ∉ r2.Args)
    (h7 : pipeByte ∉ r2.Actor) (_h8 : pipeByte ∉ r2.Cwd)
    (heq : signRequestPayload r1 t1 = signRequestPayload r2 t2) :
    r1.Operation = r2.Operation ∧ r1.Args = r2.Args ∧ t1 = t2 ∧
    r1.Actor = r2.Actor ∧ r1.Cwd = r2.Cwd := by
  rw [signRequestPayload_eq, signRequestPayload_eq] at heq
  obtain ⟨e1, heq⟩ := append_sep_inj h1 h5 heq
  obtain ⟨e2, heq⟩ := append_sep_inj h2 h6 heq
  obtain ⟨e3, heq⟩ :=
    append_sep_inj (pipe_not_mem_intToBytes t1) (pipe_not_mem_intToBytes t2) heq
  obtain ⟨e4, e5⟩ := append_sep_inj h3 h7 heq
  exact ⟨e1, e2, intToBytes_inj _ _ e3, e4, e5⟩

/-- Witness for the amended C2 at concrete delimiter-free requests. -/
theorem signRequestPayload_injective_without_delimiter_witness :
    pipeByte ∉ strBytes "list" ∧ (7 : Int) = 7 := by
  refine ⟨by decide, ?_⟩
  exact (signRequestPayload_injective_without_delimiter
    ⟨strBytes "list", strBytes "a", strBytes "bob", strBytes "/w", [], [], [], [], 0⟩
    ⟨strBytes "list", strBytes "a", strBytes "bob", strBytes "/w", [], [], [], [], 0⟩
    7 7 (by decide) (by decide) (by decide) (by decide) (by decide) (by decide)
    (by decide) (by decide) rfl).2.2.1

/-- C3 amended: `ValidateRequestAuth` accepts `ping`/`health`/`metrics`
unconditionally; otherwise it returns the distinct missing-token error
exactly when `AuthToken` is empty, the distinct invalid-token error exactly
when `AuthToken` is non-empty and differs from the issued token, and with a
matching token it verifies the HMAC signature — reporting signature failure
distinctly — if and only if the request carries a POSITIVE (not merely
nonzero) `Timestamp` and a non-empty `Signature`. -/
theorem validateRequestAuth_characterization (am : AuthManager) (req : Request) :
    ((req.Operation = OpPing ∨ req.Operation = OpHealth ∨ req.Operation = OpMetrics) →
      ValidateRequestAuth am req = AuthCheck.ok) ∧
    (¬ (req.Operation = OpPing ∨ req.Operation = OpHealth ∨ req.Operation = OpMetrics) →
      ((ValidateRequestAuth am req = AuthCheck.missingToken ↔ req.AuthToken = []) ∧
       (ValidateRequestAuth am req = AuthCheck.invalidToken ↔
         (req.AuthToken ≠ [] ∧ req.AuthToken ≠ am.token)) ∧
       (req.AuthToken ≠ [] → req.AuthToken = am.token →
         ((0 < req.Timestamp ∧ req.Signature ≠ [] →
            ((ValidateRequestAuth am req = AuthCheck.ok ↔
               VerifyRequest ⟨am.secretKey⟩ req req.Timestamp req.Signature = true) ∧
             (ValidateRequestAuth am req = AuthCheck.signatureInvalid ↔
               VerifyRequest ⟨am.secretKey⟩ req req.Timestamp req.Signature = false))) ∧
          (¬ (0 < req.Timestamp ∧ req.Signature ≠ []) →
            ValidateRequestAuth am req = AuthCheck.ok))))) := by
  by_cases hd : req.Operation = OpPing ∨ req.Operation = OpHealth ∨ req.Operation = OpMetrics
  · exact ⟨fun _ => by simp [ValidateRequestAuth, hd], fun hnd => absurd hd hnd⟩
  · refine ⟨fun h => absurd h hd, fun _ => ?_⟩
    by_cases htok : req.AuthToken = []
    · simp [ValidateRequestAuth, hd, htok]
    · by_cases hval : req.AuthToken = am.token
      · have htok2 : ¬ am.token = [] := hval ▸ htok
        have hvt2 : ValidateToken am am.token = true := by simp [ValidateToken]
        by_cases hts : 0 < req.Timestamp ∧ req.Signature ≠ []
        · by_cases hss : VerifyRequest ⟨am.secretKey⟩ req req.Timestamp req.Signature = true
          · simp [ValidateRequestAuth, hd, htok, hval, htok2, hvt2, hts, hss]
          · simp only [Bool.not_eq_true] at hss
            simp [ValidateRequestAuth, hd, htok, hval, htok2, hvt2, hts, hss]
        · simp [ValidateRequestAuth, hd, htok, hval, htok2, hvt2, hts]
      · have hvt : ¬ ValidateToken am req.AuthToken = true := by
          simp [ValidateToken]
          exact fun h => hval h.symm
        simp [ValidateRequestAuth, hd, htok, hvt, hval]

/-- Witness for the amended C3: an empty-token request for a non-diagnostic
operation is rejected with the distinct missing-token error. -/
theorem validateRequestAuth_characterization_witness :
    ¬ ((strBytes "list" : GoStr) = OpPing ∨ (strBytes "list" : GoStr) = OpHealth ∨
        (strBytes "list" : GoStr) = OpMetrics) ∧
    ValidateRequestAuth ⟨List.range 32, strBytes "tok", [], []⟩
      ⟨strBytes "list", [], [], [], [], [], [], [], 0⟩ = AuthCheck.missingToken := by
  refine ⟨by decide, ?_⟩
  exact ((validateRequestAuth_characterization ⟨List.range 32, strBytes "tok", [], []⟩
    ⟨strBytes "list", [], [], [], [], [], [], [], 0⟩).2 (by decide)).1.mpr rfl

/-- C8 amended: `GetKey` returns the master key verbatim for service
`dolt-credentials` with EVERY user (not only `dbPath`); the master key is
the same across independently constructed vaults over the same `dbPath`
whether or not the marker file existed, namely the path-derived key; and
for every service other than `dolt-credentials`,
`GetKey = SHA256(MasterKey ‖ service ‖ ":" ‖ user)`. -/
theorem getKey_characterization (keyFile1 keyFile2 dbPath u s : GoStr)
    (e1 e2 : Bool) (r1 r2 : GoStr) (hs : s ≠ doltCredentialsService) :
    GetKey (NewFileKeyring e1 r1 keyFile1 dbPath) doltCredentialsService u =
      (NewFileKeyring e1 r1 keyFile1 dbPath).masterKey ∧
    (NewFileKeyring e1 r1 keyFile1 dbPath).masterKey =
      (NewFileKeyring e2 r2 keyFile2 dbPath).masterKey ∧
    (NewFileKeyring e1 r1 keyFile1 dbPath).masterKey = deriveKeyFromDBPath dbPath none ∧
    GetKey (NewFileKeyring e1 r1 keyFile1 dbPath) s u =
      sha256 ((NewFileKeyring e1 r1 keyFile1 dbPath).masterKey ++ s ++ [58] ++ u) := by
  cases e1 <;> cases e2 <;> simp [NewFileKeyring, GetKey, hs]

/-- Witness for the amended C8 at a concrete vault, service and user. -/
theorem getKey_characterization_witness :
    (strBytes "api" : GoStr) ≠ doltCredentialsService ∧
    GetKey (NewFileKeyring true [] (strBytes "/kf") (strBytes "/db")) (strBytes "api")
        (strBytes "bob") =
      sha256 ((NewFileKeyring true [] (strBytes "/kf") (strBytes "/db")).masterKey ++
        strBytes "api" ++ [58] ++ strBytes "bob") := by
  refine ⟨by decide, ?_⟩
  exact (getKey_characterization (strBytes "/kf") (strBytes "/kf") (strBytes "/db")
    (strBytes "bob") (strBytes "api") true true [] [] (by decide)).2.2.2

end Beads
